import Mathlib

/-!
Shallow embedding of `src/ssc32u_controllers/src/servo_controller.cpp` from the
lynxmotion_ssc32u repository.  C++ `double` values are modelled as real
numbers.  The `(unsigned int)` cast applied to a double on the forward path is
modelled as truncation toward zero followed by reduction modulo 2^32 (the
wraparound behaviour the design notes attribute to the narrowing), and the
unsigned-to-int conversion at the `clamp_pulse_width` call site as the usual
two's-complement reinterpretation.  The ROS transport (publishers,
subscriptions, services) is out of scope; each handler is embedded as a pure
function from its inputs to the data it would publish, with an explicit
outcome marker for the paths on which the C++ code performs an out-of-bounds
vector access.
-/

set_option maxHeartbeats 1000000

namespace Ssc32u

/-- Joint record from the controller header; the startup-initialization flag
field is called `init` here. -/
structure Joint where
  name : String
  channel : ℤ
  min_angle : ℝ
  max_angle : ℝ
  offset_angle : ℝ
  default_angle : ℝ
  init : Bool
  invert : Bool

/-- One servo command of a `ServoCommandGroup` message: channel, pulse width
and speed, all zero-initialized by message construction. -/
structure ServoCommand where
  channel : ℤ
  pw : ℤ
  speed : ℝ

/-- A `DiscreteOutput` message: channel and output level (0 = Low). -/
structure DiscreteOutput where
  channel : ℤ
  output : ℤ

/-- One trajectory point of a `JointTrajectory` message. -/
structure TrajPoint where
  positions : List ℝ
  velocities : List ℝ

/-- A `JointTrajectory` message: joint names plus trajectory points. -/
structure JointTrajectory where
  joint_names : List String
  points : List TrajPoint

/-- The `joints_map_` member, in its iteration order (`std::map` is iterated
in key order; nothing below depends on which order it is). -/
abbrev Registry := List (String × Joint)

/-- The conversion factor `1.0 * 2000.0 / M_PI` of the source. -/
noncomputable def scale : ℝ := 2000 / Real.pi

/-- `ServoController::clamp_pulse_width` (servo_controller.cpp lines 57-68). -/
def clamp_pulse_width (pulse_width : ℤ) : ℤ :=
  if pulse_width < 500 then 500
  else if pulse_width > 2500 then 2500
  else pulse_width

/-- `ServoController::invert_pulse_width` (servo_controller.cpp lines 70-73). -/
def invert_pulse_width (pulse_width : ℤ) : ℤ :=
  3000 - pulse_width

/-- Truncation toward zero, the rounding used when C++ converts a double to an
integer type. -/
noncomputable def truncTowardZero (x : ℝ) : ℤ :=
  if 0 ≤ x then ⌊x⌋ else ⌈x⌉

/-- The `(unsigned int)` cast of a double at line 93: truncate toward zero,
then wrap into the 32-bit unsigned range. -/
noncomputable def castToUnsigned (x : ℝ) : ℤ :=
  truncTowardZero x % 2 ^ 32

/-- Conversion of the stored 32-bit unsigned pulse-width value to the `int`
parameter of `clamp_pulse_width` (two's-complement reinterpretation). -/
def unsignedToInt (u : ℤ) : ℤ :=
  if u < 2 ^ 31 then u else u - 2 ^ 32

/-- The forward conversion of line 93:
`(unsigned int)(scale * (angle - joint.offset_angle) + 1500 + 0.5)`. -/
noncomputable def angle_to_pulse_width (angle offset_angle : ℝ) : ℤ :=
  castToUnsigned (scale * (angle - offset_angle) + 1500 + 0.5)

/-- The inverse conversion of line 159:
`((double)pw - 1500.0) / scale + offset_angle`. -/
noncomputable def pulse_width_to_angle (pw : ℤ) (offset_angle : ℝ) : ℝ :=
  ((pw : ℝ) - 1500) / scale + offset_angle

/-- Speed assignment of lines 101-103: the velocity list is length-checked,
and the speed field keeps its zero initialization unless a positive velocity
is present at index `j`. -/
noncomputable def speedFor (point : TrajPoint) (j : ℕ) : ℝ :=
  match point.velocities[j]? with
  | some v => if 0 < v then scale * v else 0
  | none => 0

/-- Pulse width stored in a published command for a valid angle: raw cast
(line 93), clamp through the int conversion (line 95), then inversion when the
joint's invert flag is set (lines 97-99). -/
noncomputable def computedPw (joint : Joint) (angle : ℝ) : ℤ :=
  if joint.invert then
    invert_pulse_width
      (clamp_pulse_width (unsignedToInt (angle_to_pulse_width angle joint.offset_angle)))
  else
    clamp_pulse_width (unsignedToInt (angle_to_pulse_width angle joint.offset_angle))

/-- A default-constructed `ServoCommand` (all fields zero). -/
noncomputable def defaultCommand : ServoCommand :=
  { channel := 0, pw := 0, speed := 0 }

/-- The two validation errors logged by `joint_command_callback`: lines 110
(unknown joint, logging `msg->joint_names[i]`) and 106 (invalid angle, logging
the joint name and the angle). -/
inductive CmdError where
  | UnknownJointError : String → CmdError
  | AngleOutOfRangeError : String → ℝ → CmdError

/-- One iteration of the inner loop of `joint_command_callback` for joint name
`name` at name index `j` of point `point`: registry lookup (line 84), then the
unguarded `positions[j]` read (line 87, `none` models the out-of-bounds
access), then angle validation (line 91) and, only on success, the pulse-width
and speed computation.  `iName` is `msg->joint_names[i]`, the string the
unknown-joint log statement uses.  Returns the command pushed at line 113 and
the error recorded in this iteration, if any. -/
noncomputable def processJoint (reg : Registry) (point : TrajPoint) (iName : String)
    (name : String) (j : ℕ) : Option (ServoCommand × Option CmdError) :=
  match List.lookup name reg with
  | some joint =>
    match point.positions[j]? with
    | some angle =>
      if joint.min_angle ≤ angle ∧ angle ≤ joint.max_angle then
        some ({ channel := joint.channel,
                pw := computedPw joint angle,
                speed := speedFor point j }, none)
      else
        some (defaultCommand, some (CmdError.AngleOutOfRangeError joint.name angle))
    | none => none
  | none => some (defaultCommand, some (CmdError.UnknownJointError iName))

/-- The inner loop of `joint_command_callback` (lines 81-114) over the
remaining joint names, starting at name index `j`, with current error state
`err` (the `invalid` flag together with the error logged).  The loop condition
`j < size && !invalid` stops the scan once an error is recorded, but the
command of the failing iteration has already been pushed. -/
noncomputable def processNames (reg : Registry) (point : TrajPoint) (iName : String) :
    List String → ℕ → Option CmdError → Option (List ServoCommand × Option CmdError)
  | _, _, some e => some ([], some e)
  | [], _, none => some ([], none)
  | name :: rest, j, none =>
    match processJoint reg point iName name j with
    | none => none
    | some (cmd, err2) =>
      match processNames reg point iName rest (j + 1) err2 with
      | none => none
      | some (cmds, errF) => some (cmd :: cmds, errF)

/-- The outer loop of `joint_command_callback` (line 80) over the trajectory
points, with point index `i` and threaded error state: the `invalid` flag is
never reset, so once set the inner loop body runs for no further point, while
the commands of all points accumulate into one message. -/
noncomputable def processPoints (reg : Registry) (names : List String) :
    List TrajPoint → ℕ → Option CmdError → Option (List ServoCommand × Option CmdError)
  | [], _, err => some ([], err)
  | p :: ps, i, err =>
    match processNames reg p (names.getD i "") names 0 err with
    | none => none
    | some (cmds1, err1) =>
      match processPoints reg names ps (i + 1) err1 with
      | none => none
      | some (cmds2, err2) => some (cmds1 ++ cmds2, err2)

/-- Result of one invocation of `joint_command_callback`: an undefined
out-of-bounds `positions[j]` access, a rejected message (`invalid` set, error
logged, nothing published), or a published `ServoCommandGroup`. -/
inductive CallbackOutcome where
  | outOfBounds : CallbackOutcome
  | rejected : CmdError → CallbackOutcome
  | published : List ServoCommand → CallbackOutcome

/-- `ServoController::joint_command_callback` (lines 75-120): run both loops
and publish the accumulated command group iff `invalid` was never set. -/
noncomputable def joint_command_callback (reg : Registry) (msg : JointTrajectory) :
    CallbackOutcome :=
  match processPoints reg msg.joint_names msg.points 0 none with
  | none => CallbackOutcome.outOfBounds
  | some (_, some e) => CallbackOutcome.rejected e
  | some (cmds, none) => CallbackOutcome.published cmds

/-- `ServoController::relax_joints` (lines 122-133): one `DiscreteOutput`
message per registered joint, output 0 (Low). -/
def relax_joints (reg : Registry) : List DiscreteOutput :=
  reg.map (fun p => { channel := p.2.channel, output := 0 })

/-- The response handler of `ServoController::publish_joint_states`
(lines 146-167): walk the joint list and the measured pulse widths
positionally; a reading `pw > 0` is un-inverted if needed and converted back
to an angle, a non-positive reading is skipped.  `none` models the unguarded
`result->pulse_width[i]` read running past the end of the response. -/
noncomputable def stateEntries : List Joint → List ℤ → Option (List (String × ℝ))
  | [], _ => some []
  | _ :: _, [] => none
  | joint :: js, pw :: pws =>
    match stateEntries js pws with
    | none => none
    | some rest =>
      if 0 < pw then
        let pw2 := if joint.invert then invert_pulse_width pw else pw
        some ((joint.name, pulse_width_to_angle pw2 joint.offset_angle) :: rest)
      else
        some rest

/-- Spec-side restatement of the state-translation contract, for comparison
with `stateEntries`: zip joints with readings, keep the positive readings,
un-invert and apply the inverse codec. -/
noncomputable def stateEntriesSpec (joints : List Joint) (pws : List ℤ) : List (String × ℝ) :=
  (joints.zip pws).filterMap (fun q =>
    if 0 < q.2 then
      some (q.1.name, pulse_width_to_angle
        (if q.1.invert then invert_pulse_width q.2 else q.2) q.1.offset_angle)
    else none)

/-! Basic range facts about the codec. -/

lemma clamp_pulse_width_range (z : ℤ) :
    500 ≤ clamp_pulse_width z ∧ clamp_pulse_width z ≤ 2500 := by
  unfold clamp_pulse_width
  split_ifs <;> omega

lemma computedPw_range (joint : Joint) (angle : ℝ) :
    500 ≤ computedPw joint angle ∧ computedPw joint angle ≤ 2500 := by
  unfold computedPw
  have h := clamp_pulse_width_range
    (unsignedToInt (angle_to_pulse_width angle joint.offset_angle))
  unfold invert_pulse_width
  split_ifs <;> omega

lemma castToUnsigned_nonneg (x : ℝ) : 0 ≤ castToUnsigned x :=
  Int.emod_nonneg _ (by norm_num)

lemma castToUnsigned_lt (x : ℝ) : castToUnsigned x < 2 ^ 32 :=
  Int.emod_lt_of_pos _ (by norm_num)

/-- Value of the unsigned cast when the real argument is a nonnegative value
below 2^32: plain floor. -/
lemma castToUnsigned_eq_floor (x : ℝ) (h0 : 0 ≤ x) (hlt : x < 2 ^ 32) :
    castToUnsigned x = ⌊x⌋ := by
  unfold castToUnsigned truncTowardZero
  rw [if_pos h0]
  refine Int.emod_eq_of_lt (Int.floor_nonneg.mpr h0) ?_
  have : (⌊x⌋ : ℝ) < ((2 ^ 32 : ℤ) : ℝ) := lt_of_le_of_lt (Int.floor_le x) (by exact_mod_cast hlt)
  exact_mod_cast this

/-! Demonstration fixtures: a well-behaved joint on channel 3 and a one-entry
registry, used by the concrete test-vector theorems below. -/

noncomputable def jointDemo : Joint :=
  { name := "j1", channel := 3, min_angle := -1, max_angle := 1,
    offset_angle := 0, default_angle := 0, init := false, invert := false }

noncomputable def regDemo : Registry := [("j1", jointDemo)]

/-! Inversion and evaluation lemmas for the inner loop step. -/

lemma processJoint_unknown {reg : Registry} {point : TrajPoint} {iName name : String} {j : ℕ}
    (hl : List.lookup name reg = none) :
    processJoint reg point iName name j
      = some (defaultCommand, some (CmdError.UnknownJointError iName)) := by
  simp [processJoint, hl]

lemma processJoint_oor {reg : Registry} {point : TrajPoint} {iName name : String} {j : ℕ}
    {joint : Joint} {angle : ℝ}
    (hl : List.lookup name reg = some joint) (hp : point.positions[j]? = some angle)
    (hr : ¬(joint.min_angle ≤ angle ∧ angle ≤ joint.max_angle)) :
    processJoint reg point iName name j
      = some (defaultCommand, some (CmdError.AngleOutOfRangeError joint.name angle)) := by
  simp [processJoint, hl, hp, hr]

lemma processJoint_valid {reg : Registry} {point : TrajPoint} {iName name : String} {j : ℕ}
    {joint : Joint} {angle : ℝ}
    (hl : List.lookup name reg = some joint) (hp : point.positions[j]? = some angle)
    (hr : joint.min_angle ≤ angle ∧ angle ≤ joint.max_angle) :
    processJoint reg point iName name j
      = some ({ channel := joint.channel, pw := computedPw joint angle,
                speed := speedFor point j }, none) := by
  simp [processJoint, hl, hp, hr.1, hr.2]

lemma processJoint_ok {reg : Registry} {point : TrajPoint} {iName name : String} {j : ℕ}
    {cmd : ServoCommand}
    (h : processJoint reg point iName name j = some (cmd, none)) :
    ∃ joint angle, List.lookup name reg = some joint ∧
      point.positions[j]? = some angle ∧
      joint.min_angle ≤ angle ∧ angle ≤ joint.max_angle ∧
      cmd = { channel := joint.channel, pw := computedPw joint angle,
              speed := speedFor point j } := by
  unfold processJoint at h
  split at h
  · rename_i joint hl
    split at h
    · rename_i angle hp
      split_ifs at h with hr
      · simp only [Option.some.injEq, Prod.mk.injEq] at h
        exact ⟨joint, angle, hl, hp, hr.1, hr.2, h.1.symm⟩
      · simp at h
    · simp at h
  · simp at h

/-- Once the invalid flag is set, the inner loop pushes nothing further and
just propagates the recorded error. -/
lemma processNames_someErr (reg : Registry) (point : TrajPoint) (iName : String)
    (names : List String) (j : ℕ) (e : CmdError) :
    processNames reg point iName names j (some e) = some ([], some e) := by
  cases names <;> rfl

/-- Every command accumulated by an error-free scan of the inner loop carries
an in-range pulse width. -/
lemma processNames_ok_range (reg : Registry) (point : TrajPoint) (iName : String) :
    ∀ (names : List String) (j : ℕ) (cmds : List ServoCommand),
      processNames reg point iName names j none = some (cmds, none) →
      ∀ c ∈ cmds, 500 ≤ c.pw ∧ c.pw ≤ 2500 := by
  intro names
  induction names with
  | nil =>
    intro j cmds h c hc
    simp only [processNames, Option.some.injEq, Prod.mk.injEq] at h
    obtain ⟨rfl, -⟩ := h
    simp at hc
  | cons name rest ih =>
    intro j cmds h c hc
    simp only [processNames] at h
    cases hpj : processJoint reg point iName name j with
    | none => simp only [hpj] at h; exact Option.noConfusion h
    | some pr =>
      obtain ⟨cmd, err2⟩ := pr
      simp only [hpj] at h
      cases err2 with
      | some e =>
        rw [processNames_someErr] at h
        simp at h
      | none =>
        cases hrec : processNames reg point iName rest (j + 1) none with
        | none => simp only [hrec] at h; exact Option.noConfusion h
        | some pr2 =>
          obtain ⟨cmds2, errF⟩ := pr2
          simp only [hrec, Option.some.injEq, Prod.mk.injEq] at h
          obtain ⟨hcmds, herr⟩ := h
          subst hcmds
          subst herr
          rcases List.mem_cons.mp hc with rfl | hc2
          · obtain ⟨joint, angle, -, -, -, -, hcmd⟩ := processJoint_ok hpj
            rw [hcmd]
            exact computedPw_range joint angle
          · exact ih (j + 1) cmds2 hrec c hc2

/-- Once the invalid flag is set, the outer loop contributes no further
commands and propagates the error to the end of the message. -/
lemma processPoints_someErr (reg : Registry) (names : List String) :
    ∀ (pts : List TrajPoint) (i : ℕ) (e : CmdError),
      processPoints reg names pts i (some e) = some ([], some e) := by
  intro pts
  induction pts with
  | nil => intro i e; rfl
  | cons p ps ih =>
    intro i e
    simp only [processPoints, processNames_someErr, ih, List.nil_append]

/-- Every command accumulated by an error-free run of the outer loop carries
an in-range pulse width. -/
lemma processPoints_ok_range (reg : Registry) (names : List String) :
    ∀ (pts : List TrajPoint) (i : ℕ) (cmds : List ServoCommand),
      processPoints reg names pts i none = some (cmds, none) →
      ∀ c ∈ cmds, 500 ≤ c.pw ∧ c.pw ≤ 2500 := by
  intro pts
  induction pts with
  | nil =>
    intro i cmds h c hc
    simp only [processPoints, Option.some.injEq, Prod.mk.injEq] at h
    obtain ⟨rfl, -⟩ := h
    simp at hc
  | cons p ps ih =>
    intro i cmds h c hc
    simp only [processPoints] at h
    cases hpn : processNames reg p (names.getD i "") names 0 none with
    | none => simp only [hpn] at h; exact Option.noConfusion h
    | some pr =>
      obtain ⟨cmds1, err1⟩ := pr
      simp only [hpn] at h
      cases err1 with
      | some e =>
        rw [processPoints_someErr] at h
        simp at h
      | none =>
        cases hrec : processPoints reg names ps (i + 1) none with
        | none => simp only [hrec] at h; exact Option.noConfusion h
        | some pr2 =>
          obtain ⟨cmds2, err2⟩ := pr2
          simp only [hrec, Option.some.injEq, Prod.mk.injEq] at h
          obtain ⟨hcmds, herr⟩ := h
          subst hcmds
          subst herr
          rcases List.mem_append.mp hc with hc1 | hc2
          · exact processNames_ok_range reg p (names.getD i "") names 0 cmds1 hpn c hc1
          · exact ih (i + 1) cmds2 hrec c hc2

/-- C1: every ServoCommand published by the command-translation callback has
a pulse width in [500, 2500]: the raw value is clamped to that range and the
inversion applied afterwards (when the joint's invert flag is set) keeps the
value in the range. -/
theorem claim_C1 (reg : Registry) (msg : JointTrajectory) (cmds : List ServoCommand)
    (h : joint_command_callback reg msg = CallbackOutcome.published cmds) :
    ∀ c ∈ cmds, 500 ≤ c.pw ∧ c.pw ≤ 2500 := by
  unfold joint_command_callback at h
  cases hpp : processPoints reg msg.joint_names msg.points 0 none with
  | none => simp only [hpp] at h; exact CallbackOutcome.noConfusion h
  | some pr =>
    obtain ⟨cmds0, err⟩ := pr
    cases err with
    | some e => simp only [hpp] at h; exact CallbackOutcome.noConfusion h
    | none =>
      simp only [hpp, CallbackOutcome.published.injEq] at h
      subst h
      exact processPoints_ok_range reg msg.joint_names msg.points 0 cmds0 hpp

noncomputable def pointDemo : TrajPoint := { positions := [0], velocities := [] }

noncomputable def msgDemo1 : JointTrajectory :=
  { joint_names := ["j1"], points := [pointDemo] }

/-- Forward conversion of angle 0 with offset 0: floor of 1500.5 is 1500. -/
lemma angle_to_pulse_width_zero : angle_to_pulse_width 0 0 = 1500 := by
  unfold angle_to_pulse_width
  have h1 : scale * ((0 : ℝ) - 0) + 1500 + 0.5 = 1500.5 := by
    norm_num
  rw [h1, castToUnsigned_eq_floor _ (by norm_num) (by norm_num)]
  rw [Int.floor_eq_iff]
  norm_num

lemma computedPw_demo : computedPw jointDemo 0 = 1500 := by
  simp only [computedPw, jointDemo, angle_to_pulse_width_zero]
  norm_num [unsignedToInt, clamp_pulse_width]

lemma speedFor_demo (j : ℕ) : speedFor pointDemo j = 0 := by
  simp [speedFor, pointDemo]

lemma processJoint_demo (iName : String) :
    processJoint regDemo pointDemo iName "j1" 0
      = some ({ channel := 3, pw := 1500, speed := 0 }, none) := by
  have hl : List.lookup "j1" regDemo = some jointDemo := by
    simp [regDemo]
  have hp : pointDemo.positions[0]? = some 0 := rfl
  have hr : jointDemo.min_angle ≤ (0 : ℝ) ∧ (0 : ℝ) ≤ jointDemo.max_angle := by
    constructor <;> norm_num [jointDemo]
  rw [processJoint_valid hl hp hr, computedPw_demo, speedFor_demo]
  rfl

/-- The demonstration trajectory (angle 0 for the channel-3 joint, no
velocities) is translated to the single command channel 3, pulse width 1500. -/
lemma callback_demo1 :
    joint_command_callback regDemo msgDemo1
      = CallbackOutcome.published [{ channel := 3, pw := 1500, speed := 0 }] := by
  unfold joint_command_callback msgDemo1
  simp only [processPoints, processNames, List.getD_cons_zero, processJoint_demo,
    processNames_someErr, List.append_nil]

/-- The inner loop never reaches an out-of-bounds `positions[j]` access when
the point carries at least as many positions as there are names left. -/
lemma processNames_total (reg : Registry) (point : TrajPoint) (iName : String) :
    ∀ (names : List String) (j : ℕ) (err : Option CmdError),
      j + names.length ≤ point.positions.length →
      (processNames reg point iName names j err).isSome := by
  intro names
  induction names with
  | nil =>
    intro j err h
    cases err <;> simp [processNames]
  | cons name rest ih =>
    intro j err h
    cases err with
    | some e => rw [processNames_someErr]; rfl
    | none =>
      have hj : j < point.positions.length := by
        simp only [List.length_cons] at h
        omega
      have hp : point.positions[j]? = some point.positions[j] :=
        List.getElem?_eq_getElem hj
      simp only [processNames]
      cases hl : List.lookup name reg with
      | none =>
        simp [processJoint_unknown hl, processNames_someErr]
      | some joint =>
        by_cases hr : joint.min_angle ≤ point.positions[j] ∧
            point.positions[j] ≤ joint.max_angle
        · rw [processJoint_valid hl hp hr]
          have hrec := ih (j + 1) none (by simp only [List.length_cons] at h; omega)
          cases hrec2 : processNames reg point iName rest (j + 1) none with
          | none => rw [hrec2] at hrec; exact absurd hrec (by simp)
          | some pr2 =>
            obtain ⟨cmds2, errF⟩ := pr2
            simp [hrec2]
        · simp [processJoint_oor hl hp hr, processNames_someErr]

/-- The outer loop never reaches an out-of-bounds access when every point
carries at least as many positions as there are joint names. -/
lemma processPoints_total (reg : Registry) (names : List String) :
    ∀ (pts : List TrajPoint) (i : ℕ) (err : Option CmdError),
      (∀ p ∈ pts, names.length ≤ p.positions.length) →
      (processPoints reg names pts i err).isSome := by
  intro pts
  induction pts with
  | nil =>
    intro i err h
    simp [processPoints]
  | cons p ps ih =>
    intro i err h
    have h1 : (processNames reg p (names.getD i "") names 0 err).isSome :=
      processNames_total reg p (names.getD i "") names 0 err
        (by simpa using h p (by simp))
    simp only [processPoints]
    cases hpn : processNames reg p (names.getD i "") names 0 err with
    | none => rw [hpn] at h1; exact absurd h1 (by simp)
    | some pr =>
      obtain ⟨cmds1, err1⟩ := pr
      have h2 := ih (i + 1) err1 (fun q hq => h q (by simp [hq]))
      cases hrec : processPoints reg names ps (i + 1) err1 with
      | none => rw [hrec] at h2; exact absurd h2 (by simp)
      | some pr2 =>
        obtain ⟨cmds2, err2⟩ := pr2
        simp [hrec]

/-- An error-free inner-loop scan implies that every name it visited was
registered and its commanded angle was within range. -/
lemma processNames_ok_valid (reg : Registry) (point : TrajPoint) (iName : String) :
    ∀ (names : List String) (j : ℕ) (cmds : List ServoCommand),
      processNames reg point iName names j none = some (cmds, none) →
      ∀ (k : ℕ) (n : String), names[k]? = some n →
        ∃ joint, List.lookup n reg = some joint ∧
          ∃ a, point.positions[j + k]? = some a ∧
            joint.min_angle ≤ a ∧ a ≤ joint.max_angle := by
  intro names
  induction names with
  | nil =>
    intro j cmds h k n hk
    simp at hk
  | cons name rest ih =>
    intro j cmds h k n hk
    simp only [processNames] at h
    cases hpj : processJoint reg point iName name j with
    | none => simp only [hpj] at h; exact Option.noConfusion h
    | some pr =>
      obtain ⟨cmd, err2⟩ := pr
      simp only [hpj] at h
      cases err2 with
      | some e =>
        rw [processNames_someErr] at h
        simp at h
      | none =>
        cases hrec : processNames reg point iName rest (j + 1) none with
        | none => simp only [hrec] at h; exact Option.noConfusion h
        | some pr2 =>
          obtain ⟨cmds2, errF⟩ := pr2
          simp only [hrec, Option.some.injEq, Prod.mk.injEq] at h
          obtain ⟨-, herr⟩ := h
          subst herr
          cases k with
          | zero =>
            simp only [List.getElem?_cons_zero, Option.some.injEq] at hk
            subst hk
            obtain ⟨joint, a, hl, hp, hr1, hr2, -⟩ := processJoint_ok hpj
            exact ⟨joint, hl, a, by simpa using hp, hr1, hr2⟩
          | succ k2 =>
            simp only [List.getElem?_cons_succ] at hk
            obtain ⟨joint, hl, a, hp, hr⟩ := ih (j + 1) cmds2 hrec k2 n hk
            refine ⟨joint, hl, a, ?_, hr⟩
            rw [show j + (k2 + 1) = j + 1 + k2 by omega]
            exact hp

/-- An error-free outer-loop run implies an error-free inner-loop scan for
every point of the message. -/
lemma processPoints_ok_points (reg : Registry) (names : List String) :
    ∀ (pts : List TrajPoint) (i : ℕ) (cmds : List ServoCommand),
      processPoints reg names pts i none = some (cmds, none) →
      ∀ p ∈ pts, ∃ (iN : String) (cmds1 : List ServoCommand),
        processNames reg p iN names 0 none = some (cmds1, none) := by
  intro pts
  induction pts with
  | nil =>
    intro i cmds h p hp
    simp at hp
  | cons q ps ih =>
    intro i cmds h p hp
    simp only [processPoints] at h
    cases hpn : processNames reg q (names.getD i "") names 0 none with
    | none => simp only [hpn] at h; exact Option.noConfusion h
    | some pr =>
      obtain ⟨cmds1, err1⟩ := pr
      simp only [hpn] at h
      cases err1 with
      | some e =>
        rw [processPoints_someErr] at h
        simp at h
      | none =>
        cases hrec : processPoints reg names ps (i + 1) none with
        | none => simp only [hrec] at h; exact Option.noConfusion h
        | some pr2 =>
          obtain ⟨cmds2, err2⟩ := pr2
          simp only [hrec, Option.some.injEq, Prod.mk.injEq] at h
          obtain ⟨-, herr⟩ := h
          subst herr
          rcases List.mem_cons.mp hp with rfl | hp2
          · exact ⟨names.getD i "", cmds1, hpn⟩
          · exact ih (i + 1) cmds2 hrec p hp2

/-- A published message passed validation everywhere: every joint name of the
message is registered and every commanded angle of every point is in range. -/
lemma published_all_valid {reg : Registry} {msg : JointTrajectory}
    {cmds : List ServoCommand}
    (h : joint_command_callback reg msg = CallbackOutcome.published cmds) :
    ∀ p ∈ msg.points, ∀ (k : ℕ) (n : String), msg.joint_names[k]? = some n →
      ∃ joint, List.lookup n reg = some joint ∧
        ∃ a, p.positions[k]? = some a ∧
          joint.min_angle ≤ a ∧ a ≤ joint.max_angle := by
  intro p hp k n hk
  unfold joint_command_callback at h
  cases hpp : processPoints reg msg.joint_names msg.points 0 none with
  | none => simp only [hpp] at h; exact CallbackOutcome.noConfusion h
  | some pr =>
    obtain ⟨cmds0, err⟩ := pr
    cases err with
    | some e => simp only [hpp] at h; exact CallbackOutcome.noConfusion h
    | none =>
      obtain ⟨iN, cmds1, hpn⟩ :=
        processPoints_ok_points reg msg.joint_names msg.points 0 cmds0 hpp p hp
      have := processNames_ok_valid reg p iN msg.joint_names 0 cmds1 hpn k n hk
      simpa using this

/-- A message that mentions an unregistered joint name is never published
(provided it has at least one point, so the name is actually scanned). -/
lemma no_publish_of_unknown {reg : Registry} {msg : JointTrajectory} {n : String}
    (hpts : msg.points ≠ []) (hn : n ∈ msg.joint_names)
    (hl : List.lookup n reg = none) (cmds : List ServoCommand) :
    joint_command_callback reg msg ≠ CallbackOutcome.published cmds := by
  intro h
  obtain ⟨p, hp⟩ : ∃ p, p ∈ msg.points := by
    cases hmp : msg.points with
    | nil => exact absurd hmp hpts
    | cons q qs => exact ⟨q, by simp [hmp]⟩
  obtain ⟨k, hk⟩ := List.getElem?_of_mem hn
  obtain ⟨joint, hl2, -⟩ := published_all_valid h p hp k n hk
  rw [hl] at hl2
  exact Option.noConfusion hl2

/-- A message whose scan would meet an out-of-range angle is never
published. -/
lemma no_publish_of_oor {reg : Registry} {msg : JointTrajectory} {p : TrajPoint}
    {j : ℕ} {n : String} {joint : Joint} {a : ℝ}
    (hp : p ∈ msg.points) (hn : msg.joint_names[j]? = some n)
    (hl : List.lookup n reg = some joint) (ha : p.positions[j]? = some a)
    (hr : ¬(joint.min_angle ≤ a ∧ a ≤ joint.max_angle)) (cmds : List ServoCommand) :
    joint_command_callback reg msg ≠ CallbackOutcome.published cmds := by
  intro h
  obtain ⟨joint2, hl2, a2, ha2, hr2⟩ := published_all_valid h p hp j n hn
  rw [hl] at hl2
  rw [ha] at ha2
  cases Option.some.inj hl2
  cases Option.some.inj ha2
  exact hr hr2

/-! Fixtures for the error-path claims: a message naming an unregistered
joint, a two-point message whose second point carries an out-of-range angle,
and a message whose point carries no position values at all. -/

noncomputable def msgUnknown : JointTrajectory :=
  { joint_names := ["zz"], points := [pointDemo] }

noncomputable def point3b : TrajPoint := { positions := [5], velocities := [] }

noncomputable def msg3 : JointTrajectory :=
  { joint_names := ["j1"], points := [pointDemo, point3b] }

noncomputable def msgOOB : JointTrajectory :=
  { joint_names := ["j1"], points := [{ positions := [], velocities := [] }] }

lemma lookup_j1 : List.lookup "j1" regDemo = some jointDemo := by
  simp [regDemo]

lemma lookup_zz : List.lookup "zz" regDemo = none := by
  simp [regDemo]

lemma processJoint_demo_oor (iName : String) :
    processJoint regDemo point3b iName "j1" 0
      = some (defaultCommand, some (CmdError.AngleOutOfRangeError "j1" 5)) := by
  have hp : point3b.positions[0]? = some 5 := rfl
  have hr : ¬(jointDemo.min_angle ≤ (5 : ℝ) ∧ (5 : ℝ) ≤ jointDemo.max_angle) := by
    norm_num [jointDemo]
  rw [processJoint_oor lookup_j1 hp hr]
  rfl

/-- The two-point message is rejected with the out-of-range error of its
second point; nothing at all is published, the valid first point included. -/
lemma callback_msg3 :
    joint_command_callback regDemo msg3
      = CallbackOutcome.rejected (CmdError.AngleOutOfRangeError "j1" 5) := by
  unfold joint_command_callback msg3
  simp only [processPoints, processNames, List.getD_cons_zero, processJoint_demo,
    processJoint_demo_oor, processNames_someErr, List.append_nil]

lemma callback_oob :
    joint_command_callback regDemo msgOOB = CallbackOutcome.outOfBounds := by
  have hpj : processJoint regDemo { positions := [], velocities := [] } "j1" "j1" 0
      = none := by
    simp [processJoint, lookup_j1]
  unfold joint_command_callback msgOOB
  simp only [processPoints, processNames, List.getD_cons_zero, hpj]

/-- C2: an input containing an unregistered joint name or an out-of-range
angle is never published; under the positions-length precondition it is
rejected with one of the two validation errors; and at the point of detection
the error corresponds to the failure kind, the pushed command being the
default one (validation happens strictly before any pulse-width
computation). -/
theorem claim_C2 :
    (∀ (reg : Registry) (msg : JointTrajectory) (n : String),
      msg.points ≠ [] → n ∈ msg.joint_names → List.lookup n reg = none →
      ∀ cmds, joint_command_callback reg msg ≠ CallbackOutcome.published cmds) ∧
    (∀ (reg : Registry) (msg : JointTrajectory) (p : TrajPoint) (j : ℕ)
        (n : String) (joint : Joint) (a : ℝ),
      p ∈ msg.points → msg.joint_names[j]? = some n →
      List.lookup n reg = some joint → p.positions[j]? = some a →
      ¬(joint.min_angle ≤ a ∧ a ≤ joint.max_angle) →
      ∀ cmds, joint_command_callback reg msg ≠ CallbackOutcome.published cmds) ∧
    (∀ (reg : Registry) (msg : JointTrajectory),
      msg.points ≠ [] →
      (∀ p ∈ msg.points, msg.joint_names.length ≤ p.positions.length) →
      ((∃ n ∈ msg.joint_names, List.lookup n reg = none) ∨
        (∃ p ∈ msg.points, ∃ (j : ℕ) (n : String) (joint : Joint) (a : ℝ),
          msg.joint_names[j]? = some n ∧ List.lookup n reg = some joint ∧
          p.positions[j]? = some a ∧
          ¬(joint.min_angle ≤ a ∧ a ≤ joint.max_angle))) →
      ∃ e, joint_command_callback reg msg = CallbackOutcome.rejected e) ∧
    (∀ (reg : Registry) (point : TrajPoint) (iName name : String) (j : ℕ),
      (List.lookup name reg = none →
        processJoint reg point iName name j
          = some (defaultCommand, some (CmdError.UnknownJointError iName))) ∧
      (∀ (joint : Joint) (a : ℝ), List.lookup name reg = some joint →
        point.positions[j]? = some a →
        ¬(joint.min_angle ≤ a ∧ a ≤ joint.max_angle) →
        processJoint reg point iName name j
          = some (defaultCommand, some (CmdError.AngleOutOfRangeError joint.name a)))) := by
  refine ⟨?_, ?_, ?_, ?_⟩
  · intro reg msg n hpts hn hl cmds
    exact no_publish_of_unknown hpts hn hl cmds
  · intro reg msg p j n joint a hp hn hl ha hr cmds
    exact no_publish_of_oor hp hn hl ha hr cmds
  · intro reg msg hpts hwf hbad
    have htot := processPoints_total reg msg.joint_names msg.points 0 none hwf
    cases hpp : processPoints reg msg.joint_names msg.points 0 none with
    | none => rw [hpp] at htot; exact absurd htot (by simp)
    | some pr =>
      obtain ⟨cmds0, err⟩ := pr
      cases err with
      | some e =>
        refine ⟨e, ?_⟩
        unfold joint_command_callback
        rw [hpp]
      | none =>
        exfalso
        have hpub : joint_command_callback reg msg = CallbackOutcome.published cmds0 := by
          unfold joint_command_callback
          rw [hpp]
        rcases hbad with ⟨n, hn, hl⟩ | ⟨p, hp, j, n, joint, a, hn, hl, ha, hr⟩
        · exact no_publish_of_unknown hpts hn hl cmds0 hpub
        · exact no_publish_of_oor hp hn hl ha hr cmds0 hpub
  · intro reg point iName name j
    exact ⟨fun hl => processJoint_unknown hl,
      fun joint a hl ha hr => processJoint_oor hl ha hr⟩

/-- Witness for C2: the message naming the unregistered joint is rejected. -/
theorem claim_C2_witness :
    ∃ e, joint_command_callback regDemo msgUnknown = CallbackOutcome.rejected e :=
  claim_C2.2.2.1 regDemo msgUnknown (by simp [msgUnknown])
    (by simp [msgUnknown, pointDemo])
    (Or.inl ⟨"zz", by simp [msgUnknown], lookup_zz⟩)

/-- C3 fails on the code: the commands of all points accumulate into a single
group published only when no point failed, so the error in the second point of
the two-point message suppresses the first point's already-translated command
too, even though the one-point prefix on its own would have been published. -/
theorem claim_C3_counterexample :
    joint_command_callback regDemo msg3
      = CallbackOutcome.rejected (CmdError.AngleOutOfRangeError "j1" 5) ∧
    joint_command_callback regDemo msgDemo1
      = CallbackOutcome.published [{ channel := 3, pw := 1500, speed := 0 }] :=
  ⟨callback_msg3, callback_demo1⟩

/-- C3, amended: a validation error at any trajectory point suppresses the
publication of the whole message — the unit of atomicity is the message, not
the point, so the batches of the points before the failing one are withheld
with it. -/
theorem claim_C3 (reg : Registry) (msg : JointTrajectory) (p : TrajPoint) (j : ℕ)
    (n : String) (joint : Joint) (a : ℝ)
    (hwf : ∀ q ∈ msg.points, msg.joint_names.length ≤ q.positions.length)
    (hp : p ∈ msg.points) (hn : msg.joint_names[j]? = some n)
    (hl : List.lookup n reg = some joint) (ha : p.positions[j]? = some a)
    (hr : ¬(joint.min_angle ≤ a ∧ a ≤ joint.max_angle)) :
    ∃ e, joint_command_callback reg msg = CallbackOutcome.rejected e := by
  have htot := processPoints_total reg msg.joint_names msg.points 0 none hwf
  cases hpp : processPoints reg msg.joint_names msg.points 0 none with
  | none => rw [hpp] at htot; exact absurd htot (by simp)
  | some pr =>
    obtain ⟨cmds0, err⟩ := pr
    cases err with
    | some e =>
      refine ⟨e, ?_⟩
      unfold joint_command_callback
      rw [hpp]
    | none =>
      exfalso
      have hpub : joint_command_callback reg msg = CallbackOutcome.published cmds0 := by
        unfold joint_command_callback
        rw [hpp]
      exact no_publish_of_oor hp hn hl ha hr cmds0 hpub

/-- Witness for C3 (amended form) at the concrete two-point message. -/
theorem claim_C3_witness :
    ∃ e, joint_command_callback regDemo msg3 = CallbackOutcome.rejected e :=
  claim_C3 regDemo msg3 point3b 0 "j1" jointDemo 5
    (by simp [msg3, pointDemo, point3b]) (by simp [msg3]) rfl lookup_j1 rfl
    (by norm_num [jointDemo])

/-- C10: translation reads `positions[j]` for every joint-name index without a
length check, so it is total exactly under the precondition that every point
carries at least as many positions as there are joint names; a registered name
with an empty positions list reaches the out-of-bounds access, while a missing
velocities list (length-checked in the source) is harmless. -/
theorem claim_C10 :
    (∀ (reg : Registry) (msg : JointTrajectory),
      (∀ p ∈ msg.points, msg.joint_names.length ≤ p.positions.length) →
      joint_command_callback reg msg ≠ CallbackOutcome.outOfBounds) ∧
    joint_command_callback regDemo msgOOB = CallbackOutcome.outOfBounds ∧
    joint_command_callback regDemo msgDemo1
      = CallbackOutcome.published [{ channel := 3, pw := 1500, speed := 0 }] := by
  refine ⟨?_, callback_oob, callback_demo1⟩
  intro reg msg hwf h
  have htot := processPoints_total reg msg.joint_names msg.points 0 none hwf
  unfold joint_command_callback at h
  cases hpp : processPoints reg msg.joint_names msg.points 0 none with
  | none => rw [hpp] at htot; exact absurd htot (by simp)
  | some pr =>
    obtain ⟨cmds0, err⟩ := pr
    cases err with
    | some e =>
      simp only [hpp] at h
      exact CallbackOutcome.noConfusion h
    | none =>
      simp only [hpp] at h
      exact CallbackOutcome.noConfusion h

/-- Witness for C10: the demonstration message satisfies the precondition and
avoids the out-of-bounds outcome. -/
theorem claim_C10_witness :
    joint_command_callback regDemo msgDemo1 ≠ CallbackOutcome.outOfBounds :=
  claim_C10.1 regDemo msgDemo1 (by simp [msgDemo1, pointDemo])

/-- Witness for C1: the command published for the demonstration message has
its pulse width in range. -/
theorem claim_C1_witness :
    500 ≤ (ServoCommand.mk 3 1500 0).pw ∧ (ServoCommand.mk 3 1500 0).pw ≤ 2500 :=
  claim_C1 regDemo msgDemo1 [{ channel := 3, pw := 1500, speed := 0 }] callback_demo1
    { channel := 3, pw := 1500, speed := 0 } (by simp)

/-! C4: the forward conversion versus `round`.  A joint whose offset drives
the real-valued raw pulse below -0.5 separates the code's truncate-toward-zero
cast (which then wraps) from rounding. -/

noncomputable def joint4 : Joint :=
  { name := "skew", channel := 4, min_angle := -1, max_angle := 1,
    offset_angle := 2500.7 * Real.pi / 2000, default_angle := 0,
    init := false, invert := false }

lemma joint4_raw : scale * ((0 : ℝ) - joint4.offset_angle) + 1500 = -1000.7 := by
  have hpi := Real.pi_ne_zero
  simp only [joint4, scale]
  field_simp
  ring

/-- C4 fails on the code as universally stated: at angle 0 (inside the range
[-1, 1] of `joint4`) the raw pulse value is the wrapped truncation 4294966296,
not `round(-1000.7) = -1001`. -/
theorem claim_C4_counterexample :
    angle_to_pulse_width 0 joint4.offset_angle
      ≠ round (scale * ((0 : ℝ) - joint4.offset_angle) + 1500) := by
  have hx : scale * ((0 : ℝ) - joint4.offset_angle) + 1500 + 0.5 = -1000.2 := by
    have := joint4_raw
    linarith
  have h1 : angle_to_pulse_width 0 joint4.offset_angle = 4294966296 := by
    unfold angle_to_pulse_width castToUnsigned truncTowardZero
    rw [hx, if_neg (by norm_num)]
    have hc : ⌈(-1000.2 : ℝ)⌉ = -1000 := by
      rw [Int.ceil_eq_iff]
      norm_num
    rw [hc]
    decide
  have h2 : round (scale * ((0 : ℝ) - joint4.offset_angle) + 1500) = -1001 := by
    rw [joint4_raw, round_eq]
    rw [show (-1000.7 : ℝ) + 1 / 2 = -1000.2 by norm_num]
    rw [Int.floor_eq_iff]
    norm_num
  rw [h1, h2]
  decide

/-- C4, amended: whenever the real-valued raw pulse `scale*(angle-offset) +
1500.5` is nonnegative (and below 2^32, so the cast does not wrap), the raw
pulse width equals `round(scale*(angle-offset) + 1500)`; and the channel-3
example translates to the command {channel 3, pulse width 1500}. -/
theorem claim_C4 :
    (∀ (joint : Joint) (angle : ℝ),
      joint.min_angle ≤ angle → angle ≤ joint.max_angle →
      0 ≤ scale * (angle - joint.offset_angle) + 1500 + 0.5 →
      scale * (angle - joint.offset_angle) + 1500 + 0.5 < 2 ^ 32 →
      angle_to_pulse_width angle joint.offset_angle
        = round (scale * (angle - joint.offset_angle) + 1500)) ∧
    joint_command_callback regDemo msgDemo1
      = CallbackOutcome.published [{ channel := 3, pw := 1500, speed := 0 }] := by
  refine ⟨?_, callback_demo1⟩
  intro joint angle hmin hmax h0 hlt
  unfold angle_to_pulse_width
  rw [castToUnsigned_eq_floor _ h0 hlt, round_eq]
  norm_num

/-- Witness for C4 (amended form) at the demonstration joint and angle 0. -/
theorem claim_C4_witness :
    angle_to_pulse_width 0 jointDemo.offset_angle
      = round (scale * ((0 : ℝ) - jointDemo.offset_angle) + 1500) :=
  claim_C4.1 jointDemo 0 (by norm_num [jointDemo]) (by norm_num [jointDemo])
    (by norm_num [jointDemo]) (by norm_num [jointDemo])

/-! C9: a configuration on which the unsigned narrowing wraps a negative raw
pulse to a positive value above the range, so the clamp saturates at the wrong
end and 2500 is published where the true raw value lies below 500. -/

noncomputable def joint9 : Joint :=
  { name := "wrap", channel := 5, min_angle := -1, max_angle := 1,
    offset_angle := 4294958796.5 * Real.pi / 2000, default_angle := 0,
    init := false, invert := false }

noncomputable def reg9 : Registry := [("wrap", joint9)]

noncomputable def msg9 : JointTrajectory :=
  { joint_names := ["wrap"], points := [pointDemo] }

lemma joint9_raw :
    scale * ((0 : ℝ) - joint9.offset_angle) + 1500 + 0.5 = -4294957296 := by
  have hpi := Real.pi_ne_zero
  simp only [joint9, scale]
  field_simp
  ring

lemma atpw9 : angle_to_pulse_width 0 joint9.offset_angle = 10000 := by
  unfold angle_to_pulse_width castToUnsigned truncTowardZero
  rw [joint9_raw, if_neg (by norm_num)]
  have hc : ⌈(-4294957296 : ℝ)⌉ = -4294957296 := by
    rw [show (-4294957296 : ℝ) = ((-4294957296 : ℤ) : ℝ) by norm_num, Int.ceil_intCast]
  rw [hc]
  decide

lemma computedPw_9 : computedPw joint9 0 = 2500 := by
  simp only [computedPw, atpw9]
  norm_num [joint9, unsignedToInt, clamp_pulse_width]

lemma processJoint_9 (iName : String) :
    processJoint reg9 pointDemo iName "wrap" 0
      = some ({ channel := 5, pw := 2500, speed := 0 }, none) := by
  have hl : List.lookup "wrap" reg9 = some joint9 := by
    simp [reg9]
  have hp : pointDemo.positions[0]? = some 0 := rfl
  have hr : joint9.min_angle ≤ (0 : ℝ) ∧ (0 : ℝ) ≤ joint9.max_angle := by
    constructor <;> norm_num [joint9]
  rw [processJoint_valid hl hp hr, computedPw_9, speedFor_demo]
  rfl

lemma callback_9 :
    joint_command_callback reg9 msg9
      = CallbackOutcome.published [{ channel := 5, pw := 2500, speed := 0 }] := by
  unfold joint_command_callback msg9
  simp only [processPoints, processNames, List.getD_cons_zero, processJoint_9,
    processNames_someErr, List.append_nil]

/-- C9: for the `joint9` configuration and commanded angle 0 (inside the
joint's angle range), the real-valued raw pulse is negative, yet the published
pulse width is 2500 — the wrapped cast lands above the range and the clamp
saturates at the wrong end (500 would be the saturation of the true value). -/
theorem claim_C9 :
    scale * ((0 : ℝ) - joint9.offset_angle) + 1500 + 0.5 < 0 ∧
    computedPw joint9 0 = 2500 ∧
    joint_command_callback reg9 msg9
      = CallbackOutcome.published [{ channel := 5, pw := 2500, speed := 0 }] := by
  refine ⟨?_, computedPw_9, callback_9⟩
  rw [joint9_raw]
  norm_num

/-! C5: the forward-then-inverse round trip.  The forward map rounds to whole
microseconds, so the round trip is exact only up to half a quantization step
(π/4000 radians), far coarser than floating-point tolerance. -/

lemma pulse_width_to_angle_1501 : pulse_width_to_angle 1501 0 = Real.pi / 2000 := by
  unfold pulse_width_to_angle scale
  have hpi := Real.pi_ne_zero
  push_cast
  field_simp
  ring

/-- C5 fails on the code as stated for any floating-point-sized tolerance: at
angle `7π/20000` (≈ 0.0011, inside [-1, 1], forward pulse 1501 needing no
clamping, offset 0) the round trip returns `π/2000` and misses the angle by
`3π/20000 > 1/10000`. -/
theorem claim_C5_counterexample :
    angle_to_pulse_width (7 * Real.pi / 20000) 0 = 1501 ∧
    pulse_width_to_angle (angle_to_pulse_width (7 * Real.pi / 20000) 0) 0
        ≠ 7 * Real.pi / 20000 ∧
    |pulse_width_to_angle (angle_to_pulse_width (7 * Real.pi / 20000) 0) 0
        - 7 * Real.pi / 20000| > 1 / 10000 := by
  have hpi := Real.pi_ne_zero
  have hx : scale * (7 * Real.pi / 20000 - 0) + 1500 + 0.5 = 1501.2 := by
    simp only [scale]
    field_simp
    ring
  have h1 : angle_to_pulse_width (7 * Real.pi / 20000) 0 = 1501 := by
    unfold angle_to_pulse_width
    rw [hx, castToUnsigned_eq_floor _ (by norm_num) (by norm_num)]
    rw [Int.floor_eq_iff]
    norm_num
  have h3 := Real.pi_gt_three
  refine ⟨h1, ?_, ?_⟩
  · rw [h1, pulse_width_to_angle_1501]
    intro h
    linarith
  · rw [h1, pulse_width_to_angle_1501]
    rw [show Real.pi / 2000 - 7 * Real.pi / 20000 = 3 * Real.pi / 20000 by ring]
    rw [abs_of_pos (by linarith)]
    linarith

/-- C5, amended: when the real-valued raw pulse lies in [500, 2500] (so the
forward map needs no clamping and no wrap), the round trip recovers the angle
to within half a quantization step, π/4000 radians — quantization tolerance,
not floating-point tolerance. -/
theorem claim_C5 (a o : ℝ)
    (h500 : 500 ≤ scale * (a - o) + 1500 + 0.5)
    (h2500 : scale * (a - o) + 1500 + 0.5 ≤ 2500) :
    |pulse_width_to_angle (angle_to_pulse_width a o) o - a| ≤ Real.pi / 4000 := by
  have hpi := Real.pi_ne_zero
  have hsp : 0 < scale := div_pos (by norm_num) Real.pi_pos
  have hsne : scale ≠ 0 := ne_of_gt hsp
  obtain ⟨x, hxdef⟩ : ∃ x, x = scale * (a - o) + 1500 + 0.5 := ⟨_, rfl⟩
  rw [← hxdef] at h500 h2500
  have hfl : angle_to_pulse_width a o = ⌊x⌋ := by
    unfold angle_to_pulse_width
    rw [← hxdef]
    have hc : (2500 : ℝ) < 2 ^ 32 := by norm_num
    exact castToUnsigned_eq_floor _ (by linarith) (by linarith)
  have hfloor_le : (⌊x⌋ : ℝ) ≤ x := Int.floor_le x
  have hflt : x - 1 < ⌊x⌋ := Int.sub_one_lt_floor x
  have key : pulse_width_to_angle ⌊x⌋ o - a = ((⌊x⌋ : ℝ) - x + 0.5) / scale := by
    unfold pulse_width_to_angle
    have hax : a - o = (x - 1500 - 0.5) / scale := by
      rw [hxdef]
      field_simp
      ring
    have ha : a = (x - 1500 - 0.5) / scale + o := by linarith
    rw [ha]
    field_simp
    ring
  rw [hfl, key, abs_div, abs_of_pos hsp]
  have habs : |(⌊x⌋ : ℝ) - x + 0.5| ≤ 0.5 := by
    have h05 : (0.5 : ℝ) = 1 / 2 := by norm_num
    rw [abs_le, h05]
    constructor <;> linarith
  have hfin : (0.5 : ℝ) / scale = Real.pi / 4000 := by
    unfold scale
    field_simp
    ring
  calc |(⌊x⌋ : ℝ) - x + 0.5| / scale ≤ 0.5 / scale := (div_le_div_right hsp).mpr habs
  _ = Real.pi / 4000 := hfin

/-- Witness for C5 (amended form) at angle π/2000, offset 0. -/
theorem claim_C5_witness :
    |pulse_width_to_angle (angle_to_pulse_width (Real.pi / 2000) 0) 0 - Real.pi / 2000|
      ≤ Real.pi / 4000 := by
  have h1 : scale * (Real.pi / 2000 - 0) = 1 := by
    unfold scale
    have hpi := Real.pi_ne_zero
    field_simp
  exact claim_C5 (Real.pi / 2000) 0 (by linarith) (by linarith)

/-- C6: state translation appends `{name, (pw - 1500)/scale + offset}` (after
undoing inversion) exactly for the positions with a positive reading, skipping
the rest, so the output is the positive-reading filter of the zipped input and
its length is at most the input length; pulse width 500 with offset 0 and
invert false recovers -π/2. -/
theorem claim_C6 :
    (∀ (joints : List Joint) (pws : List ℤ),
      pws.length = joints.length →
      stateEntries joints pws = some (stateEntriesSpec joints pws) ∧
        (stateEntriesSpec joints pws).length ≤ joints.length) ∧
    stateEntries [jointDemo] [(500 : ℤ)]
      = some [("j1", -(Real.pi / 2))] := by
  constructor
  · intro joints
    induction joints with
    | nil =>
      intro pws h
      simp only [List.length_nil] at h
      rw [List.length_eq_zero] at h
      subst h
      exact ⟨rfl, by simp [stateEntriesSpec]⟩
    | cons j js ih =>
      intro pws h
      cases pws with
      | nil => simp at h
      | cons pw pws2 =>
        have h2 : pws2.length = js.length := by simpa using h
        obtain ⟨ihEq, ihLen⟩ := ih pws2 h2
        constructor
        · simp only [stateEntries, ihEq, stateEntriesSpec, List.zip_cons_cons,
            List.filterMap_cons]
          by_cases hpw : 0 < pw <;> simp [hpw, stateEntriesSpec]
        · simp only [stateEntriesSpec, List.zip_cons_cons, List.filterMap_cons]
          by_cases hpw : 0 < pw
          · simpa [hpw, stateEntriesSpec] using ihLen
          · simp only [if_neg hpw]
            exact le_trans ihLen (by simp [stateEntriesSpec])
  · have h500 : pulse_width_to_angle 500 0 = -(Real.pi / 2) := by
      unfold pulse_width_to_angle scale
      have hpi := Real.pi_ne_zero
      push_cast
      field_simp
      ring
    simp [stateEntries, jointDemo, h500]

/-- Witness for C6 at the one-joint registry with reading 500. -/
theorem claim_C6_witness :
    stateEntries [jointDemo] [(500 : ℤ)]
        = some (stateEntriesSpec [jointDemo] [(500 : ℤ)]) ∧
      (stateEntriesSpec [jointDemo] [(500 : ℤ)]).length ≤ [jointDemo].length :=
  claim_C6.1 [jointDemo] [(500 : ℤ)] rfl

/-- C7: the pulse-width inversion function is a self-inverse reflection around
1500 that preserves the valid range: for every pulse width in [500, 2500],
`invert_pulse_width p` is again in [500, 2500] and applying it twice is the
identity. -/
theorem claim_C7 (p : ℤ) (h1 : 500 ≤ p) (h2 : p ≤ 2500) :
    500 ≤ invert_pulse_width p ∧ invert_pulse_width p ≤ 2500 ∧
      invert_pulse_width (invert_pulse_width p) = p := by
  unfold invert_pulse_width
  omega

/-- Witness for C7 at the concrete pulse width 700. -/
theorem claim_C7_witness :
    500 ≤ invert_pulse_width 700 ∧ invert_pulse_width 700 ≤ 2500 ∧
      invert_pulse_width (invert_pulse_width 700) = 700 :=
  claim_C7 700 (by decide) (by decide)

/-- C8: for a registry of N joints, `relax_joints` produces exactly N
discrete-output commands, one per registered joint's channel, each with output
0 (OFF); no angle or pulse-width computation is involved. -/
theorem claim_C8 (reg : Registry) :
    (relax_joints reg).length = reg.length ∧
      (∀ d ∈ relax_joints reg, d.output = 0) ∧
      ∀ (k : ℕ) (name : String) (joint : Joint), reg[k]? = some (name, joint) →
        (relax_joints reg)[k]? = some { channel := joint.channel, output := 0 } := by
  refine ⟨by simp [relax_joints], ?_, ?_⟩
  · intro d hd
    simp only [relax_joints, List.mem_map] at hd
    obtain ⟨p, -, rfl⟩ := hd
    rfl
  · intro k name joint hk
    simp [relax_joints, List.getElem?_map, hk]

/-- Witness for C8: the singleton demonstration registry yields exactly the
one OFF command for channel 3. -/
theorem claim_C8_witness :
    (relax_joints regDemo)[0]? = some { channel := jointDemo.channel, output := 0 } :=
  (claim_C8 regDemo).2.2 0 "j1" jointDemo rfl

end Ssc32u
